import Mathlib

/-!
Shallow embedding of the `light-instruction-decoder` repository
(`src/light-instruction-decoder/src/litesvm.rs` and collaborators), with
theorems settling the claims about transaction decoding, inner-instruction
(CPI) tree reconstruction, account-state diffing and snapshot projection.

Machine integers (u8 indices, u64 lamports, usize lengths) are embedded as
`Nat`; no arithmetic in the modelled code can overflow in a way the claims
observe (the only arithmetic is `stack_height - 1` with `saturating_sub`,
embedded as `Nat` subtraction which saturates identically, and
`signatures.len() * 5000`).

External library types (solana-pubkey, solana-message, litesvm metadata)
are embedded structurally: a pubkey is an opaque value, the message's
signer/writable per-index predicates are abstract functions, and the
execution metadata carries exactly the fields the decoder reads.
-/

/-- A 32-byte program / account identifier, embedded as an opaque wrapper of
`Nat`. `Pubkey::default()` is the all-zero key, embedded as `0`. -/
structure Pubkey where
  val : Nat
deriving DecidableEq

/-- The all-zero default pubkey (`Pubkey::default()`). -/
def Pubkey.defaultKey : Pubkey := ⟨0⟩

/-- `solana_instruction::AccountMeta`: a resolved account reference. -/
structure AccountMeta where
  pubkey : Pubkey
  isSigner : Bool
  isWritable : Bool
deriving DecidableEq

/-- `AccountMeta::new(pubkey, is_signer)`: writable account meta. -/
def AccountMeta.new (pubkey : Pubkey) (isSigner : Bool) : AccountMeta :=
  ⟨pubkey, isSigner, true⟩

/-- `AccountMeta::new_readonly(pubkey, is_signer)`: read-only account meta. -/
def AccountMeta.new_readonly (pubkey : Pubkey) (isSigner : Bool) : AccountMeta :=
  ⟨pubkey, isSigner, false⟩

/-- A compiled instruction of a versioned message: program-id index into the
static account-key list, account indices (u8), raw data bytes. -/
structure CompiledInstruction where
  program_id_index : Nat
  accounts : List Nat
  data : List Nat
deriving DecidableEq

/-- `solana_message::inner_instruction::InnerInstruction`: a compiled
instruction plus the execution-trace stack height (1 = top-level frame). -/
structure InnerInstruction where
  instruction : CompiledInstruction
  stack_height : Nat
deriving DecidableEq

/-- `solana_message::VersionedMessage`, embedded by the operations the decoder
uses: the static account-key list, the compiled instruction list, and the
per-index `is_signer` / `is_maybe_writable` predicates (whose derivation from
message headers is external library code, kept abstract). -/
structure VersionedMessage where
  static_account_keys : List Pubkey
  instructions : List CompiledInstruction
  isSignerIdx : Nat → Bool
  isMaybeWritableIdx : Nat → Bool

/-- `solana_transaction::versioned::VersionedTransaction`: signatures
(embedded as opaque `Nat` values, default signature `0`) and a message. -/
structure VersionedTransaction where
  signatures : List Nat
  message : VersionedMessage

/-- A decoded field rendered to display strings (`{name, value}`). -/
structure DecodedField where
  name : String
  value : String
deriving DecidableEq

/-- A decoded instruction: name, positional account names, display fields. -/
structure DecodedInstruction where
  name : String
  account_names : List String
  fields : List DecodedField
deriving DecidableEq

/-- Modelled from the spec, section 4.2 (the concrete decoder implementations
are macro-generated and their source is not in the repository snapshot): one
row of a decoder's static discriminator table — instruction name, expected
account-name list, and the field-decode procedure applied to the payload
after the discriminator (returning `none` on malformed payloads). -/
structure DecodeEntry where
  name : String
  account_names : List String
  decodeFields : List Nat → Option (List DecodedField)

/-- Modelled from the spec, section 4.2: a concrete instruction decoder —
its program identifier and name, its fixed discriminator width, and its
static table keyed by discriminator bytes. -/
structure InstructionDecoder where
  program_id : Pubkey
  program_name : String
  width : Nat
  table : List (List Nat × DecodeEntry)

/-- Modelled from the spec, section 4.2: discriminator dispatch. Slice the
first `width` bytes of `raw` (returning `none` when `raw` is shorter than the
width), look the slice up in the static table (returning `none` on a miss),
and on a hit run the entry's field-decode procedure on the remainder. -/
def InstructionDecoder.decode (d : InstructionDecoder) (raw : List Nat)
    (_accounts : List AccountMeta) : Option DecodedInstruction :=
  if raw.length < d.width then none
  else
    match d.table.find? (fun e => decide (e.1 = raw.take d.width)) with
    | none => none
    | some (_, entry) =>
      match entry.decodeFields (raw.drop d.width) with
      | none => none
      | some fields => some ⟨entry.name, entry.account_names, fields⟩

/-- Modelled from the spec, section 4.3: the decoder registry, a mapping from
program identifier to decoder (embedded as a list resolved by first match). -/
def DecoderRegistry := List InstructionDecoder

/-- Modelled from the spec, section 4.3: `resolve(id) -> optional<&Decoder>`. -/
def DecoderRegistry.resolve (reg : DecoderRegistry) (id : Pubkey) :
    Option InstructionDecoder :=
  reg.find? (fun d => decide (d.program_id = id))

/-- The logging configuration, embedded by the one accessor the decoder uses:
`config.decoder_registry()`. -/
structure EnhancedLoggingConfig where
  registry : DecoderRegistry

/-- Modelled from the spec, section 4.3 (defined in the crate's `types`
module, not in the repository snapshot): `get_program_name` resolves a
registered decoder's name, falling back to the well-known fallback string
for an unregistered identifier. -/
def get_program_name (id : Pubkey) (reg : DecoderRegistry) : String :=
  match reg.resolve id with
  | some d => d.program_name
  | none => "Unknown Program"

/-- Modelled from the spec, sections 4.2/4.3 (the body of
`EnhancedInstructionLog::decode` lives in the crate's `types` module, not in
the repository snapshot): decoding one instruction through the registry —
resolve the decoder for the program id and run it; absent decoder or
unrecognized payload yields `none`, never an error. -/
def configDecode (cfg : EnhancedLoggingConfig) (program_id : Pubkey)
    (raw : List Nat) (accounts : List AccountMeta) : Option DecodedInstruction :=
  match cfg.registry.resolve program_id with
  | some d => d.decode raw accounts
  | none => none

/-- The non-recursive payload of one `EnhancedInstructionLog` node: every
structural field except the child list. -/
structure IxData where
  index : Nat
  program_id : Pubkey
  program_name : String
  instruction_name : Option String
  data : List Nat
  accounts : List AccountMeta
  depth : Nat
  decoded_instruction : Option DecodedInstruction
deriving DecidableEq

mutual
/-- `EnhancedInstructionLog`: a node payload plus the ordered list of inner
(CPI) instruction logs, as a strict tree. -/
inductive IxLog where
  | mk (info : IxData) (inner_instructions : IxForest)

/-- The ordered children list of an instruction log (a specialised list so
that all tree recursions are structural and compute by `rfl`). -/
inductive IxForest where
  | nil
  | cons (hd : IxLog) (tl : IxForest)
end

/-- The payload of a log node. -/
def IxLog.info : IxLog → IxData
  | .mk i _ => i

/-- The children forest of a log node. -/
def IxLog.inner : IxLog → IxForest
  | .mk _ c => c

/-- The `depth` field of a log node. -/
def IxLog.depth (l : IxLog) : Nat := l.info.depth

/-- Forest concatenation. -/
def IxForest.append : IxForest → IxForest → IxForest
  | .nil, g => g
  | .cons x xs, g => .cons x (xs.append g)

/-- The children forest as an ordinary list (one level, not recursive). -/
def IxForest.toList : IxForest → List IxLog
  | .nil => []
  | .cons x xs => x :: xs.toList

/-- Push one node at the end of a log's children (`inner_instructions.push`). -/
def IxLog.pushChild (l : IxLog) (c : IxLog) : IxLog :=
  .mk l.info (l.inner.append (.cons c .nil))

/-- `resolve_accounts` (litesvm.rs lines 445-464): map each compiled account
index to an `AccountMeta`; an out-of-range index resolves to the default
pubkey via `unwrap_or_default`. -/
def resolve_accounts (account_indices : List Nat) (account_keys : List Pubkey)
    (message : VersionedMessage) : List AccountMeta :=
  account_indices.map (fun idx =>
    let pubkey := account_keys[idx]?.getD Pubkey.defaultKey
    let s := message.isSignerIdx idx
    let w := message.isMaybeWritableIdx idx
    if w then AccountMeta.new pubkey s else AccountMeta.new_readonly pubkey s)

/-- Build the `EnhancedInstructionLog` for one inner-instruction record, as in
the loop body of `parse_inner_instructions` (litesvm.rs lines 476-489): resolve
program id (default on out-of-range index), program name, accounts, set
`depth = stack_height.saturating_sub(1)` (Nat subtraction saturates
identically), and decode through the registry. A fresh log starts with an
empty children list. -/
def buildInnerLog (cfg : EnhancedLoggingConfig) (account_keys : List Pubkey)
    (message : VersionedMessage) (inner_idx : Nat) (inner_ix : InnerInstruction) :
    IxLog :=
  let program_id :=
    account_keys[inner_ix.instruction.program_id_index]?.getD Pubkey.defaultKey
  let program_name := get_program_name program_id cfg.registry
  let accounts := resolve_accounts inner_ix.instruction.accounts account_keys message
  let depth := inner_ix.stack_height - 1
  let decoded := configDecode cfg program_id inner_ix.instruction.data accounts
  .mk ⟨inner_idx, program_id, program_name, decoded.map (·.name),
       inner_ix.instruction.data, accounts, depth, decoded⟩ .nil

mutual
/-- Modelled from the spec, section 4.4 (the body of
`EnhancedInstructionLog::find_parent_for_instruction` lives in the crate's
`types` module, not in the repository snapshot): search the already-built
children forest for the most recently attached node whose depth equals
`target`, depth-first, preferring the most recently inserted candidate at
each level; on success return the forest with `node` pushed onto that
parent's children, else `none`. -/
def findInsertF (node : IxLog) (target : Nat) : IxForest → Option IxForest
  | .nil => none
  | .cons x xs =>
    match findInsertF node target xs with
    | some xs' => some (.cons x xs')
    | none =>
      match findInsertT node target x with
      | some x' => some (.cons x' xs)
      | none => none

/-- One-tree case of `findInsertF`: the node itself when its depth matches,
otherwise its children, most recent first. -/
def findInsertT (node : IxLog) (target : Nat) : IxLog → Option IxLog
  | .mk i c =>
    if i.depth = target then some (.mk i (c.append (.cons node .nil)))
    else
      match findInsertF node target c with
      | some c' => some (.mk i c')
      | none => none
end

/-- The attachment step of `parse_inner_instructions` (litesvm.rs lines
491-503): a record at depth <= 1 is pushed as a direct child of the top-level
node; a deeper record is pushed under the parent found at `depth - 1`, falling
back to a direct child of the top-level node when no such parent exists. -/
def attachStep (parentInner : IxForest) (node : IxLog) : IxForest :=
  if node.depth ≤ 1 then parentInner.append (.cons node .nil)
  else
    match findInsertF node (node.depth - 1) parentInner with
    | some f => f
    | none => parentInner.append (.cons node .nil)

/-- The enumerated fold of `parse_inner_instructions` over the record list,
carrying the running `inner_idx` and the children forest built so far. -/
def parseInnerAux (cfg : EnhancedLoggingConfig) (account_keys : List Pubkey)
    (message : VersionedMessage) : Nat → List InnerInstruction → IxForest → IxForest
  | _, [], acc => acc
  | i, r :: rs, acc =>
    parseInnerAux cfg account_keys message (i + 1) rs
      (attachStep acc (buildInnerLog cfg account_keys message i r))

/-- `parse_inner_instructions` (litesvm.rs lines 467-505): attach every inner
(CPI) record of one top-level instruction to the parent log. -/
def parse_inner_instructions (cfg : EnhancedLoggingConfig)
    (account_keys : List Pubkey) (message : VersionedMessage)
    (inner_ixs : List InnerInstruction) (parent : IxLog) : IxLog :=
  .mk parent.info (parseInnerAux cfg account_keys message 0 inner_ixs parent.inner)

/-- `TransactionStatus`: success, or failure carrying the rendered error
description (the Rust code renders the harness error with `format` and the
debug formatter; the rendered string is embedded as the error value itself). -/
inductive TransactionStatus where
  | Success
  | Failed (reason : String)
deriving DecidableEq

/-- The litesvm execution metadata, embedded by the fields the decoder reads:
compute units, the inner-instruction trace grouped per top-level instruction
index, and the pretty program-log lines. -/
structure TransactionMetadata where
  compute_units_consumed : Nat
  inner_instructions : List (List InnerInstruction)
  pretty_logs : List String

/-- `litesvm::types::FailedTransactionMetadata`: the rendered error plus the
same metadata a successful execution carries. -/
structure FailedTransactionMetadata where
  err : String
  meta : TransactionMetadata

/-- `litesvm::types::TransactionResult = Result<TransactionMetadata,
FailedTransactionMetadata>`. -/
abbrev TransactionResult := Except FailedTransactionMetadata TransactionMetadata

/-- Per-account state captured from the VM: `(lamports, data_len, owner)`. -/
structure AccState where
  lamports : Nat
  data_len : Nat
  owner : Pubkey
deriving DecidableEq

/-- `AccountStates = HashMap<Pubkey, (u64, usize, Pubkey)>`, embedded as an
association list; a Rust hash map has no duplicate keys, which theorems
assume as a `Nodup` hypothesis on the key column where it matters. -/
def AccountStates := List (Pubkey × AccState)

/-- Association-list lookup standing in for `HashMap::get`. -/
def lookupAcc : List (Pubkey × AccState) → Pubkey → Option AccState
  | [], _ => none
  | e :: rest, k => if e.1 = k then some e.2 else lookupAcc rest k

/-- `AccountStateSnapshot`: before/after lamports and data length plus owner. -/
structure AccountStateSnapshot where
  lamports_before : Nat
  lamports_after : Nat
  data_len_before : Nat
  data_len_after : Nat
  owner : Pubkey
deriving DecidableEq

/-- Snapshot-map lookup standing in for `HashMap::get`. -/
def lookupSnap : List (Pubkey × AccountStateSnapshot) → Pubkey →
    Option AccountStateSnapshot
  | [], _ => none
  | e :: rest, k => if e.1 = k then some e.2 else lookupSnap rest k

/-- `EnhancedTransactionLog`, embedded by the structural fields the decoder
populates; `account_states` is an optional snapshot map. -/
structure EnhancedTransactionLog where
  signature : Nat
  slot : Nat
  status : TransactionStatus
  compute_used : Nat
  fee : Nat
  program_logs_pretty : List String
  instructions : List IxLog
  account_states : Option (List (Pubkey × AccountStateSnapshot))

/-- Modelled from the spec, section 3 (the `EnhancedTransactionLog::new`
constructor lives in the crate's `types` module, not in the repository
snapshot): a fresh log with the given signature and slot, default status
`Success`, zero counters, and absent `account_states`. -/
def EnhancedTransactionLog.new (signature slot : Nat) : EnhancedTransactionLog :=
  ⟨signature, slot, .Success, 0, 0, [], [], none⟩

/-- The loop body over one top-level compiled instruction in
`decode_transaction_inner` (litesvm.rs lines 148-165): resolve program id
(default on out-of-range index), program name, accounts; depth 0; decode
through the registry; then attach this instruction's slice of the
inner-instruction trace when the metadata has one. -/
def buildTopLog (cfg : EnhancedLoggingConfig) (account_keys : List Pubkey)
    (message : VersionedMessage) (meta : TransactionMetadata)
    (ix_index : Nat) (compiled_ix : CompiledInstruction) : IxLog :=
  let program_id :=
    account_keys[compiled_ix.program_id_index]?.getD Pubkey.defaultKey
  let program_name := get_program_name program_id cfg.registry
  let accounts := resolve_accounts compiled_ix.accounts account_keys message
  let decoded := configDecode cfg program_id compiled_ix.data accounts
  let ix_log : IxLog :=
    .mk ⟨ix_index, program_id, program_name, decoded.map (·.name),
         compiled_ix.data, accounts, 0, decoded⟩ .nil
  match meta.inner_instructions[ix_index]? with
  | some inner_ixs => parse_inner_instructions cfg account_keys message inner_ixs ix_log
  | none => ix_log

/-- `decode_transaction_inner` (litesvm.rs lines 124-169): derive status and
metadata from the execution result (both arms carry metadata), fill signature,
compute units, `fee = signatures.len() * 5000` and pretty logs, then build one
instruction log per compiled instruction. -/
def decode_transaction_inner (tx : VersionedTransaction) (result : TransactionResult)
    (cfg : EnhancedLoggingConfig) : EnhancedTransactionLog :=
  let account_keys := tx.message.static_account_keys
  let signature := (tx.signatures.head?).getD 0
  let statusMeta :=
    match result with
    | .ok meta => (TransactionStatus.Success, meta)
    | .error ⟨err, meta⟩ => (TransactionStatus.Failed err, meta)
  let status := statusMeta.1
  let meta := statusMeta.2
  let log := EnhancedTransactionLog.new signature 0
  { log with
    status := status
    compute_used := meta.compute_units_consumed
    fee := tx.signatures.length * 5000
    program_logs_pretty := meta.pretty_logs
    instructions :=
      tx.message.instructions.enum.map (fun p =>
        buildTopLog cfg account_keys tx.message meta p.1 p.2) }

/-- The body of the first loop of the account-state diff (litesvm.rs lines
81-96): snapshot one `pre` entry, taking `after` from `post` with
`(0, 0, default)` when the key is absent there, and `owner` from `pre`. -/
def diffPreSnapshot (post : List (Pubkey × AccState)) (e : Pubkey × AccState) :
    Pubkey × AccountStateSnapshot :=
  let postState := (lookupAcc post e.1).getD ⟨0, 0, Pubkey.defaultKey⟩
  (e.1, AccountStateSnapshot.mk e.2.lamports postState.lamports
          e.2.data_len postState.data_len e.2.owner)

/-- The body of the second loop of the account-state diff (litesvm.rs lines
97-106): `snapshots.entry(*pubkey).or_insert(..)` — insert a newly-created
account's snapshot with `before = 0` defaults unless the key is present. -/
def diffInsertStep (acc : List (Pubkey × AccountStateSnapshot))
    (e : Pubkey × AccState) : List (Pubkey × AccountStateSnapshot) :=
  if (lookupSnap acc e.1).isSome then acc
  else acc ++ [(e.1, AccountStateSnapshot.mk 0 e.2.lamports 0 e.2.data_len e.2.owner)]

/-- The account-state diff of `decode_transaction` (litesvm.rs lines 79-108):
one snapshot per key of `pre` taking `before` from `pre` and `after` from
`post`, then every key of `post` not yet present inserted with `before = 0`
defaults. -/
def diffAccountStates (pre post : List (Pubkey × AccState)) :
    List (Pubkey × AccountStateSnapshot) :=
  post.foldl diffInsertStep (pre.map (diffPreSnapshot post))

/-- `decode_transaction` (litesvm.rs lines 69-111): decode, then populate
`account_states` from the pre/post diff exactly when both maps are supplied. -/
def decode_transaction (tx : VersionedTransaction) (result : TransactionResult)
    (cfg : EnhancedLoggingConfig) (pre_states post_states : Option AccountStates) :
    EnhancedTransactionLog :=
  let log := decode_transaction_inner tx result cfg
  match pre_states, post_states with
  | some pre, some post => { log with account_states := some (diffAccountStates pre post) }
  | _, _ => log

/-- Modelled from the spec (the `TransactionStatus::text` renderer lives in
the crate's `types` module, not in the repository snapshot): the display
string of a status. The claims do not depend on the exact strings, only on
the projection being a function of the status. -/
def TransactionStatus.text : TransactionStatus → String
  | .Success => "Success"
  | .Failed reason => "Failed: " ++ reason

/-- Display rendering of a pubkey (`Pubkey::to_string`), embedded as the
decimal rendering of the opaque value. -/
def Pubkey.render (p : Pubkey) : String := toString p.val

/-- `FieldSnapshot` (litesvm.rs lines 207-212). -/
structure FieldSnapshot where
  name : String
  value : String
deriving DecidableEq

/-- `AccountSnapshot` (litesvm.rs lines 199-205). -/
structure AccountSnapshot where
  pubkey : String
  isSigner : Bool
  isWritable : Bool
deriving DecidableEq

mutual
/-- `InstructionSnapshot` (litesvm.rs lines 185-197): the JSON-serializable
projection of one instruction log, with its nested inner snapshots. -/
inductive InstructionSnapshot where
  | mk (program_id : String) (program_name : String)
       (instruction_name : Option String) (accounts : List AccountSnapshot)
       (decoded_fields : Option (List FieldSnapshot))
       (inner_instructions : SnapForest)

/-- The ordered list of nested instruction snapshots. -/
inductive SnapForest where
  | nil
  | cons (hd : InstructionSnapshot) (tl : SnapForest)
end

/-- The `program_id` field of an instruction snapshot. -/
def InstructionSnapshot.program_id : InstructionSnapshot → String
  | .mk v _ _ _ _ _ => v

/-- The `program_name` field of an instruction snapshot. -/
def InstructionSnapshot.program_name : InstructionSnapshot → String
  | .mk _ v _ _ _ _ => v

/-- The `instruction_name` field of an instruction snapshot. -/
def InstructionSnapshot.instruction_name : InstructionSnapshot → Option String
  | .mk _ _ v _ _ _ => v

/-- The `accounts` field of an instruction snapshot. -/
def InstructionSnapshot.accounts : InstructionSnapshot → List AccountSnapshot
  | .mk _ _ _ v _ _ => v

/-- The `decoded_fields` field of an instruction snapshot. -/
def InstructionSnapshot.decoded_fields : InstructionSnapshot → Option (List FieldSnapshot)
  | .mk _ _ _ _ v _ => v

/-- The `inner_instructions` field of an instruction snapshot. -/
def InstructionSnapshot.inner_instructions : InstructionSnapshot → SnapForest
  | .mk _ _ _ _ _ v => v

/-- `TransactionSnapshot` (litesvm.rs lines 176-183): the JSON-serializable
projection of an entire transaction log. -/
structure TransactionSnapshot where
  signature : String
  status : String
  fee : Nat
  compute_used : Nat
  instructions : List InstructionSnapshot

mutual
/-- `instruction_to_snapshot` (litesvm.rs lines 241-275): project one
instruction log to its snapshot — stringify program id, copy program and
instruction names, project accounts and decoded fields, recurse on children.
The log's `index`, `data` and `depth` fields are not projected. -/
def instruction_to_snapshot : IxLog → InstructionSnapshot
  | .mk i inner =>
    .mk i.program_id.render i.program_name i.instruction_name
      (i.accounts.map (fun a => ⟨a.pubkey.render, a.isSigner, a.isWritable⟩))
      (i.decoded_instruction.map (fun d => d.fields.map (fun f => ⟨f.name, f.value⟩)))
      (forest_to_snapshot inner)

/-- Children of `instruction_to_snapshot`. -/
def forest_to_snapshot : IxForest → SnapForest
  | .nil => .nil
  | .cons x xs => .cons (instruction_to_snapshot x) (forest_to_snapshot xs)
end

/-- `transaction_log_to_snapshot` (litesvm.rs lines 227-239): project a
transaction log to its snapshot — stringified signature, status text, fee,
compute units and the projected instruction list. The log's
`program_logs_pretty` and `account_states` fields are not projected. -/
def transaction_log_to_snapshot (log : EnhancedTransactionLog) : TransactionSnapshot :=
  ⟨toString log.signature, log.status.text, log.fee, log.compute_used,
   log.instructions.map instruction_to_snapshot⟩

/-- A JSON value, used to embed the serde serialization of the snapshots. -/
inductive Json where
  | str (s : String)
  | nat (n : Nat)
  | bool (b : Bool)
  | arr (elems : List Json)
  | obj (fields : List (String × Json))

/-- Serde serialization of `FieldSnapshot` (derive, no skips). -/
def serializeField (f : FieldSnapshot) : Json :=
  .obj [("name", .str f.name), ("value", .str f.value)]

/-- Serde serialization of `AccountSnapshot` (derive, no skips). -/
def serializeAccount (a : AccountSnapshot) : Json :=
  .obj [("pubkey", .str a.pubkey), ("is_signer", .bool a.isSigner),
        ("is_writable", .bool a.isWritable)]

mutual
/-- Serde serialization of `InstructionSnapshot`, following the derive
attributes in the source (litesvm.rs lines 185-197): `instruction_name` and
`decoded_fields` carry `skip_serializing_if Option.isNone`, and
`inner_instructions` carries `skip_serializing_if Vec.is_empty`, so absent
options and an empty child list are omitted from the object. -/
def serializeInstruction : InstructionSnapshot → Json
  | .mk pid pname iname accounts fields inner =>
    .obj ([("program_id", .str pid), ("program_name", .str pname)]
      ++ (match iname with
          | none => []
          | some s => [("instruction_name", .str s)])
      ++ [("accounts", .arr (accounts.map serializeAccount))]
      ++ (match fields with
          | none => []
          | some fs => [("decoded_fields", .arr (fs.map serializeField))])
      ++ (match inner with
          | .nil => []
          | .cons x xs => [("inner_instructions", .arr (serializeForest (.cons x xs)))]))

/-- Element-wise serialization of a snapshot forest. -/
def serializeForest : SnapForest → List Json
  | .nil => []
  | .cons x xs => serializeInstruction x :: serializeForest xs
end

/-- Serde serialization of `TransactionSnapshot` (litesvm.rs lines 176-183):
no skip attributes, every field is always emitted. -/
def serializeTransaction (t : TransactionSnapshot) : Json :=
  .obj [("signature", .str t.signature), ("status", .str t.status),
        ("fee", .nat t.fee), ("compute_used", .nat t.compute_used),
        ("instructions", .arr (t.instructions.map serializeInstruction))]

/-- The key list of a serialized JSON object (empty for non-objects). -/
def Json.objKeys : Json → List String
  | .obj fields => fields.map (·.1)
  | _ => []

mutual
/-- All node payloads of a tree, root first. -/
def flatT : IxLog → List IxData
  | .mk i c => i :: flatF c

/-- All node payloads of a forest, in order. -/
def flatF : IxForest → List IxData
  | .nil => []
  | .cons x xs => flatT x ++ flatF xs
end

mutual
/-- All subtrees of a tree, root first. -/
def subT : IxLog → List IxLog
  | .mk i c => .mk i c :: subF c

/-- All subtrees of the trees of a forest, in order. -/
def subF : IxForest → List IxLog
  | .nil => []
  | .cons x xs => subT x ++ subF xs
end

theorem IxForest.toList_append : ∀ f g : IxForest,
    (f.append g).toList = f.toList ++ g.toList
  | .nil, g => rfl
  | .cons x xs, g => by
    simp [IxForest.append, IxForest.toList, IxForest.toList_append xs g]

theorem flatF_append : ∀ f g : IxForest, flatF (f.append g) = flatF f ++ flatF g
  | .nil, g => rfl
  | .cons x xs, g => by
    simp [IxForest.append, flatF, flatF_append xs g]

mutual
/-- A successful `findInsertF` yields a forest whose payload multiset is the
input's plus the inserted node's subtree: nothing is lost or duplicated. -/
theorem findInsertF_perm (node : IxLog) (target : Nat) :
    ∀ f f' : IxForest, findInsertF node target f = some f' →
      (flatF f').Perm (flatF f ++ flatT node)
  | .nil, f', h => by simp [findInsertF] at h
  | .cons x xs, f', h => by
    rw [findInsertF] at h
    cases hxs : findInsertF node target xs with
    | some xs' =>
      rw [hxs] at h
      cases h
      have ih := findInsertF_perm node target xs xs' hxs
      simp only [flatF, List.append_assoc]
      exact ih.append_left (flatT x)
    | none =>
      rw [hxs] at h
      cases hxt : findInsertT node target x with
      | some x' =>
        rw [hxt] at h
        cases h
        have ih := findInsertT_perm node target x x' hxt
        simp only [flatF]
        refine (ih.append_right (flatF xs)).trans ?_
        rw [List.append_assoc, List.append_assoc]
        exact List.perm_append_comm.append_left (flatT x)
      | none => rw [hxt] at h; cases h

/-- Tree case of `findInsertF_perm`. -/
theorem findInsertT_perm (node : IxLog) (target : Nat) :
    ∀ t t' : IxLog, findInsertT node target t = some t' →
      (flatT t').Perm (flatT t ++ flatT node)
  | .mk i c, t', h => by
    rw [findInsertT] at h
    by_cases hd : i.depth = target
    · rw [if_pos hd] at h
      cases h
      simp only [flatT, flatF_append, flatF, List.append_nil, List.cons_append]
      exact List.Perm.refl _
    · rw [if_neg hd] at h
      cases hc : findInsertF node target c with
      | some c' =>
        rw [hc] at h
        cases h
        have ih := findInsertF_perm node target c c' hc
        simp only [flatT, List.cons_append]
        exact ih.cons i
      | none => rw [hc] at h; cases h
end

mutual
/-- A successful `findInsertF` attaches `node` as a child of a node of the
forest whose depth equals the requested target depth. -/
theorem findInsertF_parent (node : IxLog) (target : Nat) :
    ∀ f f' : IxForest, findInsertF node target f = some f' →
      ∃ p, p ∈ subF f' ∧ p.depth = target ∧ node ∈ p.inner.toList
  | .nil, f', h => by simp [findInsertF] at h
  | .cons x xs, f', h => by
    rw [findInsertF] at h
    cases hxs : findInsertF node target xs with
    | some xs' =>
      rw [hxs] at h
      cases h
      obtain ⟨p, hp, hdep, hmem⟩ := findInsertF_parent node target xs xs' hxs
      exact ⟨p, by simp [subF, hp], hdep, hmem⟩
    | none =>
      rw [hxs] at h
      cases hxt : findInsertT node target x with
      | some x' =>
        rw [hxt] at h
        cases h
        obtain ⟨p, hp, hdep, hmem⟩ := findInsertT_parent node target x x' hxt
        exact ⟨p, by simp [subF, hp], hdep, hmem⟩
      | none => rw [hxt] at h; cases h

/-- Tree case of `findInsertF_parent`. -/
theorem findInsertT_parent (node : IxLog) (target : Nat) :
    ∀ t t' : IxLog, findInsertT node target t = some t' →
      ∃ p, p ∈ subT t' ∧ p.depth = target ∧ node ∈ p.inner.toList
  | .mk i c, t', h => by
    rw [findInsertT] at h
    by_cases hd : i.depth = target
    · rw [if_pos hd] at h
      cases h
      refine ⟨.mk i (c.append (.cons node .nil)), by simp [subT], ?_, ?_⟩
      · simpa [IxLog.depth, IxLog.info] using hd
      · simp [IxLog.inner, IxForest.toList_append, IxForest.toList]
    · rw [if_neg hd] at h
      cases hc : findInsertF node target c with
      | some c' =>
        rw [hc] at h
        cases h
        obtain ⟨p, hp, hdep, hmem⟩ := findInsertF_parent node target c c' hc
        exact ⟨p, by simp [subT, hp], hdep, hmem⟩
      | none => rw [hc] at h; cases h
end

/-- One attachment step neither loses nor duplicates payloads: the result
holds exactly the previous payloads plus the new node's. -/
theorem attachStep_perm (f : IxForest) (node : IxLog) :
    (flatF (attachStep f node)).Perm (flatF f ++ flatT node) := by
  rw [attachStep]
  by_cases hd : node.depth ≤ 1
  · rw [if_pos hd]
    simp [flatF_append, flatF]
  · rw [if_neg hd]
    cases hfi : findInsertF node (node.depth - 1) f with
    | some f' => exact findInsertF_perm node (node.depth - 1) f f' hfi
    | none => simp [flatF_append, flatF]

/-- The payloads of the logs built for a record list starting at a given
running index (each freshly built log has no children yet). -/
def builtData (cfg : EnhancedLoggingConfig) (account_keys : List Pubkey)
    (message : VersionedMessage) : Nat → List InnerInstruction → List IxData
  | _, [] => []
  | i, r :: rs =>
    (buildInnerLog cfg account_keys message i r).info
      :: builtData cfg account_keys message (i + 1) rs

theorem flatT_buildInnerLog (cfg : EnhancedLoggingConfig)
    (account_keys : List Pubkey) (message : VersionedMessage)
    (i : Nat) (r : InnerInstruction) :
    flatT (buildInnerLog cfg account_keys message i r)
      = [(buildInnerLog cfg account_keys message i r).info] := by
  simp [buildInnerLog, flatT, flatF, IxLog.info]

/-- The fold of `parse_inner_instructions` adds exactly one payload per
record to the accumulated forest, up to permutation. -/
theorem parseInnerAux_perm (cfg : EnhancedLoggingConfig)
    (account_keys : List Pubkey) (message : VersionedMessage) :
    ∀ (recs : List InnerInstruction) (i : Nat) (acc : IxForest),
      (flatF (parseInnerAux cfg account_keys message i recs acc)).Perm
        (flatF acc ++ builtData cfg account_keys message i recs)
  | [], i, acc => by simp [parseInnerAux, builtData]
  | r :: rs, i, acc => by
    rw [parseInnerAux, builtData]
    have ih := parseInnerAux_perm cfg account_keys message rs (i + 1)
      (attachStep acc (buildInnerLog cfg account_keys message i r))
    refine ih.trans ?_
    have hstep := attachStep_perm acc (buildInnerLog cfg account_keys message i r)
    refine (hstep.append_right _).trans ?_
    rw [flatT_buildInnerLog, List.append_assoc]
    exact List.Perm.refl _

/-- C1: For every flat inner-instruction sequence processed for one top-level
instruction, each record's depth is `stack_height - 1` saturating at 0; a
record with depth <= 1 is attached as a direct child of the top-level node; a
record with depth > 1 is attached under the already-built node of depth
`depth - 1` found by the most-recent-first search, and when no such ancestor
exists the record is attached directly under the top-level node; so every
record's payload appears in the resulting tree exactly once (the payload
multiset of the result is exactly the initial tree's plus one payload per
record). -/
theorem c1_inner_records_attached_exactly_once (cfg : EnhancedLoggingConfig)
    (account_keys : List Pubkey) (message : VersionedMessage) :
    (∀ i r, (buildInnerLog cfg account_keys message i r).depth = r.stack_height - 1)
    ∧ (∀ recs parent,
        (flatT (parse_inner_instructions cfg account_keys message recs parent)).Perm
          (flatT parent ++ builtData cfg account_keys message 0 recs))
    ∧ (∀ acc node, node.depth ≤ 1 → attachStep acc node = acc.append (.cons node .nil))
    ∧ (∀ acc node, 1 < node.depth →
        findInsertF node (node.depth - 1) acc = none →
        attachStep acc node = acc.append (.cons node .nil))
    ∧ (∀ acc node f2, 1 < node.depth →
        findInsertF node (node.depth - 1) acc = some f2 →
        attachStep acc node = f2
          ∧ ∃ p, p ∈ subF f2 ∧ p.depth = node.depth - 1 ∧ node ∈ p.inner.toList) := by
  refine ⟨?_, ?_, ?_, ?_, ?_⟩
  · intro i r
    simp [buildInnerLog, IxLog.depth, IxLog.info]
  · intro recs parent
    cases parent with
    | mk i c =>
      rw [parse_inner_instructions]
      simp only [flatT, IxLog.info, IxLog.inner, List.cons_append]
      exact (parseInnerAux_perm cfg account_keys message recs 0 c).cons i
  · intro acc node h
    rw [attachStep, if_pos h]
  · intro acc node h1 h2
    rw [attachStep, if_neg (by omega), h2]
  · intro acc node f2 h1 h2
    refine ⟨by rw [attachStep, if_neg (by omega), h2], ?_⟩
    exact findInsertF_parent node (node.depth - 1) acc f2 h2

/-- Concrete payload used by the C1 witness. -/
def c1wData (i d : Nat) : IxData :=
  ⟨i, Pubkey.defaultKey, "Unknown Program", none, [], [], d, none⟩

/-- Concrete depth-2 node used by the C1 witness. -/
def c1wNode : IxLog := .mk (c1wData 1 2) .nil

/-- Concrete one-node forest (a depth-1 child) used by the C1 witness. -/
def c1wAcc : IxForest := .cons (.mk (c1wData 0 1) .nil) .nil

/-- Witness for C1: at a concrete forest holding one depth-1 child, a
concrete depth-2 node is attached under that child, which has the target
depth and now holds the node. -/
theorem c1_inner_records_attached_exactly_once_witness :
    attachStep c1wAcc c1wNode
        = .cons (.mk (c1wData 0 1) (.cons c1wNode .nil)) .nil
      ∧ ∃ p, p ∈ subF (.cons (.mk (c1wData 0 1) (.cons c1wNode .nil)) .nil)
          ∧ p.depth = c1wNode.depth - 1 ∧ c1wNode ∈ p.inner.toList :=
  (c1_inner_records_attached_exactly_once ⟨[]⟩ []
      ⟨[], [], fun _ => false, fun _ => false⟩).2.2.2.2
    c1wAcc c1wNode (.cons (.mk (c1wData 0 1) (.cons c1wNode .nil)) .nil)
    (by simp [c1wNode, c1wData, IxLog.depth, IxLog.info]) rfl

/-- Empty message used by the C2 scenario (no static keys, no compiled
instructions, no signer/writable indices). -/
def c2msg : VersionedMessage := ⟨[], [], fun _ => false, fun _ => false⟩

/-- An inner-instruction record of the C2 scenario at a given stack height
(program index 0, no accounts, empty data). -/
def c2rec (h : Nat) : InnerInstruction := ⟨⟨0, [], []⟩, h⟩

/-- The payload every reconstructed node of the C2 scenario carries: running
index and depth, default (unresolvable) program id with the fallback name, no
accounts, no decode. -/
def c2data (i d : Nat) : IxData :=
  ⟨i, Pubkey.defaultKey, "Unknown Program", none, [], [], d, none⟩

/-- The top-level instruction log of the C2 scenario before inner records are
attached. -/
def c2top : IxLog := .mk (c2data 0 0) .nil

/-- C2: an instruction whose inner trace has three records at stack heights
[2, 3, 2] reconstructs to: record 1 a direct child of the top-level node,
record 2 a child of record 1, and record 3 a second direct child of the
top-level node — a sibling of record 1, not a child of it. -/
theorem c2_stack_heights_two_three_two :
    parse_inner_instructions ⟨[]⟩ [] c2msg
        [c2rec 2, c2rec 3, c2rec 2] c2top
      = .mk (c2data 0 0)
          (.cons (.mk (c2data 0 1) (.cons (.mk (c2data 1 2) .nil) .nil))
            (.cons (.mk (c2data 2 1) .nil) .nil)) := rfl

/-- C3: decoding a failed transaction produces status `Failed` carrying the
rendered error description, and otherwise proceeds identically to decoding
the same metadata as a success — in particular the log holds exactly one
instruction entry per compiled instruction regardless of the result. -/
theorem c3_failure_decodes_identically (tx : VersionedTransaction)
    (cfg : EnhancedLoggingConfig) :
    (∀ e m, decode_transaction_inner tx (Except.error ⟨e, m⟩) cfg
        = { decode_transaction_inner tx (Except.ok m) cfg with
            status := .Failed e })
    ∧ (∀ result : TransactionResult,
        (decode_transaction_inner tx result cfg).instructions.length
          = tx.message.instructions.length) := by
  constructor
  · intro e m
    rfl
  · intro result
    cases result with
    | ok m => simp [decode_transaction_inner]
    | error f => simp [decode_transaction_inner]

/-- C8: the fee recorded in the decoded log is the number of signatures
times the fixed per-signature fee of 5000 lamports, on both decoding entry
points. -/
theorem c8_fee_is_signature_count_times_5000 (tx : VersionedTransaction)
    (result : TransactionResult) (cfg : EnhancedLoggingConfig)
    (pre_states post_states : Option AccountStates) :
    (decode_transaction_inner tx result cfg).fee = tx.signatures.length * 5000
    ∧ (decode_transaction tx result cfg pre_states post_states).fee
        = tx.signatures.length * 5000 := by
  have h1 : (decode_transaction_inner tx result cfg).fee
      = tx.signatures.length * 5000 := by
    cases result <;> rfl
  refine ⟨h1, ?_⟩
  cases pre_states with
  | none => cases post_states <;> simpa [decode_transaction] using h1
  | some pre => cases post_states <;> simpa [decode_transaction] using h1

/-- C6: the decoded log's `account_states` is populated exactly when both a
pre-execution and a post-execution state map are supplied; the populated
value is the pre/post diff, and with either map absent the field is absent. -/
theorem c6_account_states_iff_both_supplied (tx : VersionedTransaction)
    (result : TransactionResult) (cfg : EnhancedLoggingConfig) :
    (∀ pre post, (decode_transaction tx result cfg (some pre) (some post)).account_states
        = some (diffAccountStates pre post))
    ∧ (∀ post_states, (decode_transaction tx result cfg none post_states).account_states
        = none)
    ∧ (∀ pre_states, (decode_transaction tx result cfg pre_states none).account_states
        = none)
    ∧ (∀ pre_states post_states,
        (decode_transaction tx result cfg pre_states post_states).account_states.isSome
          ↔ (pre_states.isSome ∧ post_states.isSome)) := by
  have hinner : (decode_transaction_inner tx result cfg).account_states = none := by
    cases result <;> rfl
  refine ⟨?_, ?_, ?_, ?_⟩
  · intro pre post
    simp [decode_transaction]
  · intro post_states
    cases post_states <;> simpa [decode_transaction] using hinner
  · intro pre_states
    cases pre_states <;> simpa [decode_transaction] using hinner
  · intro pre_states post_states
    cases pre_states with
    | none => cases post_states <;> simp [decode_transaction, hinner]
    | some pre => cases post_states <;> simp [decode_transaction, hinner]

theorem lookupSnap_append_some (b : List (Pubkey × AccountStateSnapshot))
    (k : Pubkey) : ∀ (a : List (Pubkey × AccountStateSnapshot)) (v : AccountStateSnapshot),
    lookupSnap a k = some v → lookupSnap (a ++ b) k = some v
  | [], v, h => by simp [lookupSnap] at h
  | e :: rest, v, h => by
    by_cases he : e.1 = k
    · simp only [lookupSnap, if_pos he] at h
      simpa [lookupSnap, if_pos he] using h
    · simp only [lookupSnap, if_neg he] at h
      simpa [lookupSnap, if_neg he] using lookupSnap_append_some b k rest v h

theorem lookupSnap_append_none (b : List (Pubkey × AccountStateSnapshot))
    (k : Pubkey) : ∀ (a : List (Pubkey × AccountStateSnapshot)),
    lookupSnap a k = none → lookupSnap (a ++ b) k = lookupSnap b k
  | [], _ => by simp
  | e :: rest, h => by
    by_cases he : e.1 = k
    · simp [lookupSnap, if_pos he] at h
    · simp only [lookupSnap, if_neg he] at h
      simpa [lookupSnap, if_neg he] using lookupSnap_append_none b k rest h

/-- Lookup in the first-loop result: the per-key snapshot built from a `pre`
entry and the `post` lookup at the same key. -/
theorem lookupSnap_map_pre (post : List (Pubkey × AccState)) :
    ∀ (pre : List (Pubkey × AccState)) (k : Pubkey),
    lookupSnap (pre.map (diffPreSnapshot post)) k
      = (lookupAcc pre k).map (fun pv =>
          let postState := (lookupAcc post k).getD ⟨0, 0, Pubkey.defaultKey⟩
          AccountStateSnapshot.mk pv.lamports postState.lamports
            pv.data_len postState.data_len pv.owner)
  | [], k => rfl
  | e :: rest, k => by
    by_cases he : e.1 = k
    · subst he
      simp [lookupSnap, lookupAcc, diffPreSnapshot]
    · simp [lookupSnap, lookupAcc, diffPreSnapshot, he, lookupSnap_map_pre post rest k]

/-- The second loop never disturbs a key that is already present. -/
theorem foldl_diffInsertStep_some (k : Pubkey) (v : AccountStateSnapshot) :
    ∀ (post : List (Pubkey × AccState)) (acc : List (Pubkey × AccountStateSnapshot)),
    lookupSnap acc k = some v →
    lookupSnap (post.foldl diffInsertStep acc) k = some v
  | [], _, h => h
  | e :: rest, acc, h => by
    have hstep : lookupSnap (diffInsertStep acc e) k = some v := by
      rw [diffInsertStep]
      split
      · exact h
      · exact lookupSnap_append_some _ k acc v h
    exact foldl_diffInsertStep_some k v rest (diffInsertStep acc e) hstep

/-- The second loop gives a key absent from the accumulator exactly the
first `post` occurrence's snapshot with `before = 0` defaults. -/
theorem foldl_diffInsertStep_none (k : Pubkey) :
    ∀ (post : List (Pubkey × AccState)) (acc : List (Pubkey × AccountStateSnapshot)),
    lookupSnap acc k = none →
    lookupSnap (post.foldl diffInsertStep acc) k
      = (lookupAcc post k).map (fun qv =>
          AccountStateSnapshot.mk 0 qv.lamports 0 qv.data_len qv.owner)
  | [], _, h => by simpa [lookupAcc] using h
  | e :: rest, acc, h => by
    by_cases he : e.1 = k
    · have hnone : (lookupSnap acc e.1).isSome = false := by
        rw [he, h]; rfl
      have hstep : diffInsertStep acc e
          = acc ++ [(e.1, AccountStateSnapshot.mk 0 e.2.lamports 0 e.2.data_len e.2.owner)] := by
        rw [diffInsertStep, hnone]
        simp
      have hlook : lookupSnap (diffInsertStep acc e) k
          = some (AccountStateSnapshot.mk 0 e.2.lamports 0 e.2.data_len e.2.owner) := by
        rw [hstep, lookupSnap_append_none _ k acc h]
        simp [lookupSnap, he]
      rw [List.foldl_cons, foldl_diffInsertStep_some k _ rest _ hlook]
      simp [lookupAcc, he]
    · have hstep : lookupSnap (diffInsertStep acc e) k = none := by
        rw [diffInsertStep]
        split
        · exact h
        · rw [lookupSnap_append_none _ k acc h]
          simp [lookupSnap, he]
      rw [List.foldl_cons, foldl_diffInsertStep_none k rest _ hstep]
      simp [lookupAcc, he]

/-- C4: the diffed snapshot map covers the union of the pre and post key
sets; a key present in both maps gets the pre values as `before`, the post
values as `after` (owner from pre); a key present only in post gets
`lamports_before = 0` and `data_len_before = 0` with the post values as
`after`. The diff is a total function — no input errors. The `Nodup`
hypotheses record that a Rust `HashMap` holds each key at most once. -/
theorem c4_diff_covers_union (pre post : List (Pubkey × AccState))
    (_hpre : (pre.map Prod.fst).Nodup) (_hpost : (post.map Prod.fst).Nodup) :
    (∀ k pv qv, lookupAcc pre k = some pv → lookupAcc post k = some qv →
        lookupSnap (diffAccountStates pre post) k
          = some (AccountStateSnapshot.mk pv.lamports qv.lamports
              pv.data_len qv.data_len pv.owner))
    ∧ (∀ k qv, lookupAcc pre k = none → lookupAcc post k = some qv →
        lookupSnap (diffAccountStates pre post) k
          = some (AccountStateSnapshot.mk 0 qv.lamports 0 qv.data_len qv.owner))
    ∧ (∀ k, (lookupSnap (diffAccountStates pre post) k).isSome
        ↔ ((lookupAcc pre k).isSome ∨ (lookupAcc post k).isSome)) := by
  have hboth : ∀ k pv, lookupAcc pre k = some pv →
      lookupSnap (diffAccountStates pre post) k
        = some (AccountStateSnapshot.mk pv.lamports
            ((lookupAcc post k).getD ⟨0, 0, Pubkey.defaultKey⟩).lamports
            pv.data_len
            ((lookupAcc post k).getD ⟨0, 0, Pubkey.defaultKey⟩).data_len
            pv.owner) := by
    intro k pv hk
    have hfrom := lookupSnap_map_pre post pre k
    rw [hk] at hfrom
    exact foldl_diffInsertStep_some k _ post _ hfrom
  have honly : ∀ k, lookupAcc pre k = none →
      lookupSnap (diffAccountStates pre post) k
        = (lookupAcc post k).map (fun qv =>
            AccountStateSnapshot.mk 0 qv.lamports 0 qv.data_len qv.owner) := by
    intro k hk
    have hfrom := lookupSnap_map_pre post pre k
    rw [hk] at hfrom
    exact foldl_diffInsertStep_none k post _ hfrom
  refine ⟨?_, ?_, ?_⟩
  · intro k pv qv hp hq
    have := hboth k pv hp
    rw [hq] at this
    simpa using this
  · intro k qv hp hq
    rw [honly k hp, hq]
    rfl
  · intro k
    cases hp : lookupAcc pre k with
    | some pv => simp [hboth k pv hp]
    | none =>
      rw [honly k hp]
      cases hq : lookupAcc post k <;> simp

/-- Witness for C4 at one-entry maps sharing the key 7 plus a key 9 present
only in post: the shared key snapshots pre-before/post-after, the post-only
key gets zero befores, and both keys (and no more) are covered. -/
theorem c4_diff_covers_union_witness :
    (lookupSnap (diffAccountStates [(⟨7⟩, ⟨100, 10, ⟨3⟩⟩)]
        [(⟨7⟩, ⟨250, 20, ⟨4⟩⟩), (⟨9⟩, ⟨50, 5, ⟨6⟩⟩)]) ⟨7⟩
      = some (AccountStateSnapshot.mk 100 250 10 20 ⟨3⟩))
    ∧ (lookupSnap (diffAccountStates [(⟨7⟩, ⟨100, 10, ⟨3⟩⟩)]
        [(⟨7⟩, ⟨250, 20, ⟨4⟩⟩), (⟨9⟩, ⟨50, 5, ⟨6⟩⟩)]) ⟨9⟩
      = some (AccountStateSnapshot.mk 0 50 0 5 ⟨6⟩)) := by
  have h := c4_diff_covers_union [(⟨7⟩, ⟨100, 10, ⟨3⟩⟩)]
    [(⟨7⟩, ⟨250, 20, ⟨4⟩⟩), (⟨9⟩, ⟨50, 5, ⟨6⟩⟩)] (by decide) (by decide)
  exact ⟨h.1 ⟨7⟩ ⟨100, 10, ⟨3⟩⟩ ⟨250, 20, ⟨4⟩⟩ rfl rfl,
         h.2.1 ⟨9⟩ ⟨50, 5, ⟨6⟩⟩ rfl rfl⟩

/-- C9: for a key present in both the pre- and post-state maps, the diffed
snapshot's `owner` is the pre-execution owner; the post-execution owner is
not consulted, so an owner change during execution is invisible in the
snapshot's `owner` field. -/
theorem c9_owner_taken_from_pre (pre post : List (Pubkey × AccState))
    (_hpre : (pre.map Prod.fst).Nodup) (_hpost : (post.map Prod.fst).Nodup) :
    ∀ k pv qv, lookupAcc pre k = some pv → lookupAcc post k = some qv →
      (lookupSnap (diffAccountStates pre post) k).map AccountStateSnapshot.owner
        = some pv.owner := by
  intro k pv qv hp hq
  have hfrom := lookupSnap_map_pre post pre k
  rw [hp] at hfrom
  have h2 := foldl_diffInsertStep_some k _ post _ hfrom
  simp only [diffAccountStates]
  rw [h2]
  rfl

/-- Witness for C9 at a key whose owner changes from 3 to 4 during
execution: the snapshot still reports owner 3 (the pre-execution owner). -/
theorem c9_owner_taken_from_pre_witness :
    (lookupSnap (diffAccountStates [(⟨7⟩, ⟨100, 10, ⟨3⟩⟩)]
        [(⟨7⟩, ⟨250, 20, ⟨4⟩⟩)]) ⟨7⟩).map AccountStateSnapshot.owner
      = some ⟨3⟩ :=
  c9_owner_taken_from_pre [(⟨7⟩, ⟨100, 10, ⟨3⟩⟩)] [(⟨7⟩, ⟨250, 20, ⟨4⟩⟩)]
    (by decide) (by decide) ⟨7⟩ ⟨100, 10, ⟨3⟩⟩ ⟨250, 20, ⟨4⟩⟩ rfl rfl

theorem parse_inner_instructions_info (cfg : EnhancedLoggingConfig)
    (account_keys : List Pubkey) (message : VersionedMessage)
    (inner_ixs : List InnerInstruction) (parent : IxLog) :
    (parse_inner_instructions cfg account_keys message inner_ixs parent).info
      = parent.info := rfl

theorem buildTopLog_program_id (cfg : EnhancedLoggingConfig)
    (account_keys : List Pubkey) (message : VersionedMessage)
    (meta : TransactionMetadata) (ix_index : Nat) (cix : CompiledInstruction) :
    (buildTopLog cfg account_keys message meta ix_index cix).info.program_id
      = account_keys[cix.program_id_index]?.getD Pubkey.defaultKey := by
  rw [buildTopLog]
  cases meta.inner_instructions[ix_index]? with
  | some inner => rfl
  | none => rfl

/-- C10: account resolution is total — an out-of-range compiled account index
resolves to the default (all-zero) pubkey, the resolved list always has one
entry per index, and a top-level instruction whose program-id index is out of
range still yields a log entry, with the default program id. -/
theorem c10_account_resolution_total (account_indices : List Nat)
    (account_keys : List Pubkey) (message : VersionedMessage) :
    (resolve_accounts account_indices account_keys message).length
        = account_indices.length
    ∧ (∀ (i idx : Nat), account_indices[i]? = some idx → account_keys.length ≤ idx →
        ∃ m, (resolve_accounts account_indices account_keys message)[i]? = some m
          ∧ m.pubkey = Pubkey.defaultKey)
    ∧ (∀ (tx : VersionedTransaction) (res : TransactionResult)
        (cfg : EnhancedLoggingConfig) (ix_index : Nat) (cix : CompiledInstruction),
        tx.message.instructions[ix_index]? = some cix →
        tx.message.static_account_keys.length ≤ cix.program_id_index →
        ∃ l, (decode_transaction_inner tx res cfg).instructions[ix_index]? = some l
          ∧ l.info.program_id = Pubkey.defaultKey) := by
  refine ⟨by simp [resolve_accounts], ?_, ?_⟩
  · intro i idx hi hlen
    have hk : account_keys[idx]? = none := List.getElem?_eq_none hlen
    rw [resolve_accounts, List.getElem?_map, hi]
    by_cases hw : message.isMaybeWritableIdx idx
    · exact ⟨_, rfl, by simp [hw, hk, AccountMeta.new]⟩
    · exact ⟨_, rfl, by simp [hw, hk, AccountMeta.new_readonly]⟩
  · intro tx res cfg ix_index cix hget hlen
    have hk : tx.message.static_account_keys[cix.program_id_index]? = none :=
      List.getElem?_eq_none hlen
    have hins : ∀ meta : TransactionMetadata,
        ((tx.message.instructions.enum.map (fun p =>
            buildTopLog cfg tx.message.static_account_keys tx.message meta p.1 p.2))[ix_index]?)
          = some (buildTopLog cfg tx.message.static_account_keys tx.message meta ix_index cix) := by
      intro meta
      rw [List.getElem?_map]
      simp [List.getElem?_enum, hget]
    cases res with
    | ok meta =>
      refine ⟨_, by simpa [decode_transaction_inner] using hins meta, ?_⟩
      rw [buildTopLog_program_id, hk]
      rfl
    | error f =>
      refine ⟨_, by simpa [decode_transaction_inner] using hins f.meta, ?_⟩
      rw [buildTopLog_program_id, hk]
      rfl

/-- Concrete transaction used by the C10 witness: one compiled instruction
whose program-id index 5 and account index 9 are both out of range of the
single static key. -/
def c10tx : VersionedTransaction :=
  ⟨[1], ⟨[⟨42⟩], [⟨5, [9], [7]⟩], fun _ => false, fun _ => false⟩⟩

/-- Witness for C10: at the concrete out-of-range transaction the resolved
account and the produced log entry both carry the default pubkey. -/
theorem c10_account_resolution_total_witness :
    (∃ m, (resolve_accounts [9] [⟨42⟩] c10tx.message)[0]? = some m
        ∧ m.pubkey = Pubkey.defaultKey)
    ∧ (∃ l, (decode_transaction_inner c10tx
          (Except.ok ⟨0, [], []⟩) ⟨[]⟩).instructions[0]? = some l
        ∧ l.info.program_id = Pubkey.defaultKey) :=
  ⟨(c10_account_resolution_total [9] [⟨42⟩] c10tx.message).2.1 0 9 rfl (by decide),
   (c10_account_resolution_total [9] [⟨42⟩] c10tx.message).2.2 c10tx
     (Except.ok ⟨0, [], []⟩) ⟨[]⟩ 0 ⟨5, [9], [7]⟩ rfl (by decide)⟩

/-- C5: a decoder returns no decoded instruction — `none`, not an error —
whenever the raw payload is shorter than the decoder's discriminator width or
its leading bytes match no discriminator in the decoder's table. `decode` is
a total function over its inputs, so no input can raise or panic. -/
theorem c5_decode_none_on_unknown_or_short (d : InstructionDecoder)
    (raw : List Nat) (accounts : List AccountMeta) :
    (raw.length < d.width → d.decode raw accounts = none)
    ∧ ((∀ e ∈ d.table, e.1 ≠ raw.take d.width) → d.decode raw accounts = none) := by
  constructor
  · intro h
    rw [InstructionDecoder.decode, if_pos h]
  · intro h
    rw [InstructionDecoder.decode]
    by_cases hlen : raw.length < d.width
    · rw [if_pos hlen]
    · rw [if_neg hlen]
      have hnone : d.table.find? (fun e => decide (e.1 = raw.take d.width)) = none := by
        rw [List.find?_eq_none]
        intro e he
        simpa using h e he
      rw [hnone]

/-- Concrete decoder used by the C5 witness: width-8 table with a single
known discriminator. -/
def c5decoder : InstructionDecoder :=
  ⟨⟨1⟩, "Counter", 8,
   [([1, 2, 3, 4, 5, 6, 7, 8], ⟨"Initialize", ["counter"], fun _ => some []⟩)]⟩

/-- Witness for C5: a 3-byte payload (shorter than the 8-byte width) and an
8-byte payload of `0xFF` bytes (matching no table discriminator) both decode
to `none`. -/
theorem c5_decode_none_on_unknown_or_short_witness :
    c5decoder.decode [0, 0, 0] [] = none
    ∧ c5decoder.decode [255, 255, 255, 255, 255, 255, 255, 255] [] = none :=
  ⟨(c5_decode_none_on_unknown_or_short c5decoder [0, 0, 0] []).1 (by decide),
   (c5_decode_none_on_unknown_or_short c5decoder
      [255, 255, 255, 255, 255, 255, 255, 255] []).2
     (by intro e he; fin_cases he; decide)⟩

/-- Instruction log used by the C7 counterexample (index 0, data [1, 2],
depth 1). -/
def c7ixA : IxLog := .mk ⟨0, ⟨1⟩, "P", none, [1, 2], [], 1, none⟩ .nil

/-- Instruction log used by the C7 counterexample, differing from `c7ixA` in
index, raw data and depth only. -/
def c7ixB : IxLog := .mk ⟨5, ⟨1⟩, "P", none, [9], [], 3, none⟩ .nil

/-- Transaction log used by the C7 counterexample. -/
def c7logA : EnhancedTransactionLog :=
  ⟨7, 0, .Success, 10, 5000, [], [c7ixA], none⟩

/-- Transaction log used by the C7 counterexample, differing from `c7logA` in
program logs, account states, and the instruction's index/data/depth only. -/
def c7logB : EnhancedTransactionLog :=
  ⟨7, 0, .Success, 10, 5000, ["log line"], [c7ixB], some []⟩

/-- Counterexample for C7: the snapshot projection is not injective on the
structural fields — two logs that differ in `program_logs_pretty`,
`account_states`, and the instruction's `index`, `data` and `depth` project
to the same snapshot, so those structural fields have no corresponding
snapshot field. -/
theorem c7_counterexample_fields_not_projected :
    transaction_log_to_snapshot c7logA = transaction_log_to_snapshot c7logB
    ∧ c7logA.program_logs_pretty ≠ c7logB.program_logs_pretty
    ∧ c7logA.account_states ≠ c7logB.account_states
    ∧ (c7ixA.info.index, c7ixA.info.data, c7ixA.info.depth)
        ≠ (c7ixB.info.index, c7ixB.info.data, c7ixB.info.depth) :=
  ⟨rfl, by decide, by decide, by decide⟩

/-- C7 as amended: the snapshot projection carries the transaction log's
signature, status, fee, compute units and instruction list, and per
instruction the program id, program name, instruction name, accounts,
decoded fields and inner instructions (but not the transaction's program
logs or account states, nor the instruction's index, raw data or depth); in
the serialized output an absent `instruction_name` or `decoded_fields` and
an empty `inner_instructions` list are omitted rather than emitted as empty
containers, while every other field is always emitted. -/
theorem c7_amended_projection_and_omission :
    (∀ log : EnhancedTransactionLog,
        (transaction_log_to_snapshot log).signature = toString log.signature
        ∧ (transaction_log_to_snapshot log).status = log.status.text
        ∧ (transaction_log_to_snapshot log).fee = log.fee
        ∧ (transaction_log_to_snapshot log).compute_used = log.compute_used
        ∧ (transaction_log_to_snapshot log).instructions
            = log.instructions.map instruction_to_snapshot)
    ∧ (∀ t : TransactionSnapshot, (serializeTransaction t).objKeys
        = ["signature", "status", "fee", "compute_used", "instructions"])
    ∧ (∀ s : InstructionSnapshot, (serializeInstruction s).objKeys
        = ["program_id", "program_name"]
          ++ (match s.instruction_name with
              | none => []
              | some _ => ["instruction_name"])
          ++ ["accounts"]
          ++ (match s.decoded_fields with
              | none => []
              | some _ => ["decoded_fields"])
          ++ (match s.inner_instructions with
              | .nil => []
              | .cons _ _ => ["inner_instructions"])) := by
  refine ⟨?_, ?_, ?_⟩
  · intro log
    exact ⟨rfl, rfl, rfl, rfl, rfl⟩
  · intro t
    rfl
  · intro s
    cases s with
    | mk pid pname iname accounts fields inner =>
      cases iname <;> cases fields <;> cases inner <;>
        simp [serializeInstruction, Json.objKeys,
              InstructionSnapshot.instruction_name,
              InstructionSnapshot.decoded_fields,
              InstructionSnapshot.inner_instructions]
